import Mathlib

/-!
Verification of the trajectory integrator `simulate_projectile`
(`src/app/simulation.py`) of the PhysicsFlight repository.

The Python function is shallowly embedded over exact rationals `ℚ`
(idealising IEEE floats).  The source computes the initial velocity
components as `v0 * cos (radians angle)` and `v0 * sin (radians angle)`;
those trigonometric values are transcendental, so the embedded
configuration carries the resulting initial velocity components `vx0`,
`vy0` directly.  Quantifying over all rational `(vx0, vy0)` covers every
launch speed and angle.  Everything after that initial conversion is
field arithmetic and is embedded literally, statement for statement.

The Python `while` loop is embedded as a fuel-indexed recursion
`simLoop`; `none` signals insufficient fuel and never a behaviour of the
source.  `simulate_projectile` supplies enough fuel for every
configuration in the documented input domain (`dt > 0`, `h0 ≥ 0`), which
is proved below.
-/

-- The Batteries implementations of rational arithmetic are irreducible by
-- default; restore the default transparency locally so that concrete runs
-- of the embedded integrator can be evaluated by `decide` inside proofs.
attribute [local semireducible] Rat.add Rat.mul Rat.sub Rat.inv Rat.ofScientific

namespace PF

/-- One telemetry row `(t, x, y, vx, vy, ax, ay)`; the Python code keeps
seven parallel lists `ts, xs, ys, vxs, vys, axs, ays`, which is the same
data presented row-wise. -/
structure TelemetryRow where
  t : ℚ
  x : ℚ
  y : ℚ
  vx : ℚ
  vy : ℚ
  ax : ℚ
  ay : ℚ
deriving DecidableEq

/-- The mutable loop state of `simulate_projectile`: the kinematic state,
the bounce counter, the first-impact latch (`None` in Python is `none`),
and the two accumulating records `traj` and the telemetry rows. -/
structure State where
  x : ℚ
  y : ℚ
  vx : ℚ
  vy : ℚ
  ax : ℚ
  ay : ℚ
  t : ℚ
  bounces : ℤ
  first_impact : Option (ℚ × ℚ)
  rows : List TelemetryRow
  traj : List (ℚ × ℚ)
deriving DecidableEq

/-- The immutable configuration (spec §3 SimulationConfig), with the
initial velocity components in place of `(v0, angle_deg)` as explained in
the file header. -/
structure Config where
  vx0 : ℚ
  vy0 : ℚ
  h0 : ℚ
  g : ℚ
  drag_coeff : ℚ
  include_air_resistance : Bool
  dt : ℚ
  restitution : ℚ
  ground_friction : ℚ
  max_bounces : ℤ
deriving DecidableEq

/-- `np.sign`: `1` on positives, `-1` on negatives, `0` at `0`. -/
def sign (q : ℚ) : ℚ := if 0 < q then 1 else if q < 0 then -1 else 0

/-- The force model: acceleration from the current velocity, exactly the
two branches of the Python code (`ax = -drag_coeff * np.sign(vx) * abs(vx)`,
`ay = -g - drag_coeff * np.sign(vy) * abs(vy)` when
`include_air_resistance`, else `(0, -g)`). -/
def accelOf (cfg : Config) (vx vy : ℚ) : ℚ × ℚ :=
  if cfg.include_air_resistance then
    (-cfg.drag_coeff * sign vx * |vx|,
     -cfg.g - cfg.drag_coeff * sign vy * |vy|)
  else (0, -cfg.g)

/-- `MAX_TIME = 60.0`, the simulated-time ceiling of the loop. -/
def MAX_TIME : ℚ := 60

/-- Integrated velocity `vx = vx_prev + ax_prev * dt`. -/
def stepVx (cfg : Config) (s : State) : ℚ := s.vx + s.ax * cfg.dt

/-- Integrated velocity `vy = vy_prev + ay_prev * dt`. -/
def stepVy (cfg : Config) (s : State) : ℚ := s.vy + s.ay * cfg.dt

/-- Integrated position `x = x_prev + vx * dt` (with the new `vx`). -/
def stepX (cfg : Config) (s : State) : ℚ := s.x + stepVx cfg s * cfg.dt

/-- Integrated position `y = y_prev + vy * dt` (with the new `vy`). -/
def stepY (cfg : Config) (s : State) : ℚ := s.y + stepVy cfg s * cfg.dt

/-- The ground-crossing test `y < 0.0 and vy < 0.0` applied to the
post-integration values. -/
def crossCond (cfg : Config) (s : State) : Prop :=
  stepY cfg s < 0 ∧ stepVy cfg s < 0

instance (cfg : Config) (s : State) : Decidable (crossCond cfg s) :=
  inferInstanceAs (Decidable (_ ∧ _))

/-- The guarded interpolation fraction:
`alpha = (y_prev / denom) if denom != 0 else 0.0` with
`denom = y_prev - y`. -/
def alphaOf (cfg : Config) (s : State) : ℚ :=
  if s.y - stepY cfg s ≠ 0 then s.y / (s.y - stepY cfg s) else 0

/-- Backtracked impact abscissa `x = x_prev + alpha * (x - x_prev)`. -/
def impactX (cfg : Config) (s : State) : ℚ :=
  s.x + alphaOf cfg s * (stepX cfg s - s.x)

/-- Backtracked impact time `t = t_prev + alpha * dt`. -/
def impactT (cfg : Config) (s : State) : ℚ :=
  s.t + alphaOf cfg s * cfg.dt

/-- Post-bounce vertical velocity `vy = -vy * restitution`. -/
def bounceVy (cfg : Config) (s : State) : ℚ :=
  -stepVy cfg s * cfg.restitution

/-- Post-bounce horizontal velocity `vx = vx * (1.0 - ground_friction)`. -/
def bounceVx (cfg : Config) (s : State) : ℚ :=
  stepVx cfg s * (1 - cfg.ground_friction)

/-- The provisional acceleration computed right after the integration
step from the *new* (pre-bounce) velocity. -/
def nextAccel (cfg : Config) (s : State) : ℚ × ℚ :=
  accelOf cfg (stepVx cfg s) (stepVy cfg s)

/-- The near-rest velocity test `abs(vy) < 0.05 and abs(vx) < 0.05`. -/
def restCond (vx vy : ℚ) : Prop := |vy| < 0.05 ∧ |vx| < 0.05

instance (vx vy : ℚ) : Decidable (restCond vx vy) :=
  inferInstanceAs (Decidable (_ ∧ _))

/-- The full telemetry row holding the current state, as appended by the
`ts.append(t); xs.append(x); ...` block. -/
def stateRow (s : State) : TelemetryRow :=
  ⟨s.t, s.x, s.y, s.vx, s.vy, s.ax, s.ay⟩

/-- The loop state after an iteration that resolved a ground crossing:
position/time rewritten to the interpolated crossing point, `y = 0`,
bounce response applied, first-impact latched if unset, counter
incremented, and the row recorded. -/
def crossState (cfg : Config) (s : State) : State :=
  { x := impactX cfg s
    y := 0
    vx := bounceVx cfg s
    vy := bounceVy cfg s
    ax := (nextAccel cfg s).1
    ay := (nextAccel cfg s).2
    t := impactT cfg s
    bounces := s.bounces + 1
    first_impact :=
      if s.first_impact = none then some (impactX cfg s, impactT cfg s)
      else s.first_impact
    rows := s.rows ++
      [⟨impactT cfg s, impactX cfg s, 0, bounceVx cfg s, bounceVy cfg s,
        (nextAccel cfg s).1, (nextAccel cfg s).2⟩]
    traj := s.traj ++ [(impactX cfg s, 0)] }

/-- The loop state after an iteration with no ground crossing: the plain
semi-implicit Euler step, with the row recorded. -/
def flightState (cfg : Config) (s : State) : State :=
  { x := stepX cfg s
    y := stepY cfg s
    vx := stepVx cfg s
    vy := stepVy cfg s
    ax := (nextAccel cfg s).1
    ay := (nextAccel cfg s).2
    t := s.t + cfg.dt
    bounces := s.bounces
    first_impact := s.first_impact
    rows := s.rows ++
      [⟨s.t + cfg.dt, stepX cfg s, stepY cfg s, stepVx cfg s, stepVy cfg s,
        (nextAccel cfg s).1, (nextAccel cfg s).2⟩]
    traj := s.traj ++ [(stepX cfg s, stepY cfg s)] }

/-- Why the loop stopped.  The Python code has no explicit reason value;
this tags which of its `break` statements (or the `while` guard) ended
the run, mirroring the termination states of spec §4.4. -/
inductive StopReason where
  | bounceLimit
  | restBounce
  | restGround
  | timedOut
deriving DecidableEq

/-- Outcome of one execution of the loop body: either continue with the
new state, or stop (one of the `break`s) with the final state. -/
inductive IterResult where
  | next (s : State)
  | halt (reason : StopReason) (s : State)
deriving DecidableEq

/-- The state carried by an iteration outcome. -/
def IterResult.st : IterResult → State
  | .next s => s
  | .halt _ s => s

/-- One execution of the `while` body: integrate, recompute acceleration,
resolve a ground crossing if any (backtrack, latch first impact, bounce,
count, check the bounce-limit and tiny-motion `break`s), record the row,
and check the at-rest-on-ground `break`. -/
def loopBody (cfg : Config) (s : State) : IterResult :=
  if crossCond cfg s then
    if cfg.max_bounces ≤ s.bounces + 1 then
      IterResult.halt StopReason.bounceLimit (crossState cfg s)
    else if restCond (bounceVx cfg s) (bounceVy cfg s) then
      IterResult.halt StopReason.restBounce (crossState cfg s)
    else if (0 : ℚ) = 0 ∧ restCond (bounceVx cfg s) (bounceVy cfg s) then
      IterResult.halt StopReason.restGround (crossState cfg s)
    else IterResult.next (crossState cfg s)
  else
    if stepY cfg s = 0 ∧ restCond (stepVx cfg s) (stepVy cfg s) then
      IterResult.halt StopReason.restGround (flightState cfg s)
    else IterResult.next (flightState cfg s)

/-- The `while t <= MAX_TIME` loop, indexed by fuel.  `none` means the
fuel ran out (never the source's behaviour; `simulate_projectile` below
always supplies enough). -/
def simLoop (cfg : Config) : ℕ → State → Option (State × StopReason)
  | 0, _ => none
  | fuel + 1, s =>
    if s.t ≤ MAX_TIME then
      match loopBody cfg s with
      | IterResult.next s' => simLoop cfg fuel s'
      | IterResult.halt reason s' => some (s', reason)
    else some (s, StopReason.timedOut)

/-- The state before the loop: position `(0, h0)`, the initial velocity,
the initial acceleration from the force model, and the seeded first
telemetry row and trajectory point. -/
def initState (cfg : Config) : State :=
  { x := 0
    y := cfg.h0
    vx := cfg.vx0
    vy := cfg.vy0
    ax := (accelOf cfg cfg.vx0 cfg.vy0).1
    ay := (accelOf cfg cfg.vx0 cfg.vy0).2
    t := 0
    bounces := 0
    first_impact := none
    rows := [⟨0, 0, cfg.h0, cfg.vx0, cfg.vy0,
             (accelOf cfg cfg.vx0 cfg.vy0).1, (accelOf cfg cfg.vx0 cfg.vy0).2⟩]
    traj := [(0, cfg.h0)] }

/-- Executable floor of a rational (equal to `Int.floor`, proved below);
used to compute the fuel bound. -/
def ratFloor (q : ℚ) : ℤ := q.num / q.den

/-- Fuel that always suffices on the documented input domain: one unit
per plain time step below the ceiling, one per bounce, plus slack. -/
def fuelFor (cfg : Config) : ℕ :=
  (ratFloor (MAX_TIME / cfg.dt)).toNat + cfg.max_bounces.toNat + 2

/-- The embedded `simulate_projectile`.  The final `State` carries the
returned trajectory (`traj`), total elapsed time (`t`), telemetry rows
(`rows`) and the metadata attrs (`first_impact`); the `StopReason` tags
which exit path ended the loop. -/
def simulate_projectile (cfg : Config) : Option (State × StopReason) :=
  simLoop cfg (fuelFor cfg) (initState cfg)

/-- Observer: the final bounce counter. -/
def simBounces (cfg : Config) : Option ℤ :=
  (simulate_projectile cfg).map fun r => r.1.bounces

/-- Observer: the exit path taken. -/
def simReason (cfg : Config) : Option StopReason :=
  (simulate_projectile cfg).map fun r => r.2

/-- Observer: how many telemetry rows were recorded. -/
def simRowsLen (cfg : Config) : Option ℕ :=
  (simulate_projectile cfg).map fun r => r.1.rows.length

/-- Observer: the returned total elapsed time. -/
def simFinalT (cfg : Config) : Option ℚ :=
  (simulate_projectile cfg).map fun r => r.1.t

/-- Observer: whether some recorded row ever met the near-rest velocity
threshold. -/
def simEverRest (cfg : Config) : Option Bool :=
  (simulate_projectile cfg).map fun r =>
    r.1.rows.any fun row => decide (restCond row.vx row.vy)

/-- Observer: the number of accepted steps, i.e. rows beyond the seeded
initial row. -/
def simSteps (cfg : Config) : Option ℕ :=
  (simulate_projectile cfg).map fun r => r.1.rows.length - 1

/-- Remaining time budget of a state, in loop iterations: positive while
the `while` guard still holds, and antitone in `t`. -/
def timePart (cfg : Config) (t : ℚ) : ℕ :=
  if t ≤ MAX_TIME then (⌊(MAX_TIME - t) / cfg.dt⌋).toNat + 1 else 0

/-- Termination measure: remaining time budget plus remaining bounce
budget.  Every `IterResult.next` iteration strictly decreases it (proved
below), which is what makes `fuelFor` sufficient. -/
def stepMeasure (cfg : Config) (s : State) : ℕ :=
  timePart cfg s.t + (cfg.max_bounces - s.bounces).toNat

/-- The degenerate launch of spec §8: `v0 = 0`, `h0 = 0`, Earth gravity
`g = 9.81`, and the Python defaults `drag_coeff = 0`,
`include_air_resistance = True`, `dt = 0.01`, `restitution = 0.6`,
`ground_friction = 0.05`, `max_bounces = 20`. -/
def cfgDegenerate : Config :=
  ⟨0, 0, 0, 981/100, 0, true, 1/100, 3/5, 1/20, 20⟩

/-- The degenerate launch with `max_bounces = 1`: its first crossing
triggers the bounce-limit exit. -/
def cfgBounceLimitOne : Config :=
  ⟨0, 0, 0, 981/100, 0, true, 1/100, 3/5, 1/20, 1⟩

/-- Zero gravity, horizontal unit velocity from height 100, `dt = 30`:
the projectile never descends, never rests, and the run times out. -/
def cfgTimeout : Config :=
  ⟨1, 0, 100, 0, 0, false, 30, 3/5, 1/20, 1⟩

/-- Same flight with the coarse step `dt = 40`: two steps are accepted
although `60 / dt = 1.5`. -/
def cfgCoarse : Config :=
  ⟨1, 0, 100, 0, 0, false, 40, 3/5, 1/20, 1⟩

/-- The concrete result of the degenerate run (total by evaluation). -/
def resDegenerate : State × StopReason :=
  (simulate_projectile cfgDegenerate).getD (initState cfgDegenerate, StopReason.timedOut)

/-- The concrete result of the `max_bounces = 1` degenerate run. -/
def resBounceLimitOne : State × StopReason :=
  (simulate_projectile cfgBounceLimitOne).getD
    (initState cfgBounceLimitOne, StopReason.timedOut)

/-- The concrete result of the timeout run. -/
def resTimeout : State × StopReason :=
  (simulate_projectile cfgTimeout).getD (initState cfgTimeout, StopReason.timedOut)

/-! Basic facts about the two possible outcomes of one loop iteration. -/

@[simp] lemma crossState_x (cfg : Config) (s : State) :
    (crossState cfg s).x = impactX cfg s := rfl

@[simp] lemma crossState_y (cfg : Config) (s : State) :
    (crossState cfg s).y = 0 := rfl

@[simp] lemma crossState_vx (cfg : Config) (s : State) :
    (crossState cfg s).vx = bounceVx cfg s := rfl

@[simp] lemma crossState_vy (cfg : Config) (s : State) :
    (crossState cfg s).vy = bounceVy cfg s := rfl

@[simp] lemma crossState_ax (cfg : Config) (s : State) :
    (crossState cfg s).ax = (nextAccel cfg s).1 := rfl

@[simp] lemma crossState_ay (cfg : Config) (s : State) :
    (crossState cfg s).ay = (nextAccel cfg s).2 := rfl

@[simp] lemma crossState_t (cfg : Config) (s : State) :
    (crossState cfg s).t = impactT cfg s := rfl

@[simp] lemma crossState_bounces (cfg : Config) (s : State) :
    (crossState cfg s).bounces = s.bounces + 1 := rfl

@[simp] lemma crossState_first_impact (cfg : Config) (s : State) :
    (crossState cfg s).first_impact =
      if s.first_impact = none then some (impactX cfg s, impactT cfg s)
      else s.first_impact := rfl

@[simp] lemma crossState_rows (cfg : Config) (s : State) :
    (crossState cfg s).rows = s.rows ++ [stateRow (crossState cfg s)] := rfl

@[simp] lemma crossState_traj (cfg : Config) (s : State) :
    (crossState cfg s).traj = s.traj ++ [(impactX cfg s, 0)] := rfl

@[simp] lemma flightState_x (cfg : Config) (s : State) :
    (flightState cfg s).x = stepX cfg s := rfl

@[simp] lemma flightState_y (cfg : Config) (s : State) :
    (flightState cfg s).y = stepY cfg s := rfl

@[simp] lemma flightState_vx (cfg : Config) (s : State) :
    (flightState cfg s).vx = stepVx cfg s := rfl

@[simp] lemma flightState_vy (cfg : Config) (s : State) :
    (flightState cfg s).vy = stepVy cfg s := rfl

@[simp] lemma flightState_ax (cfg : Config) (s : State) :
    (flightState cfg s).ax = (nextAccel cfg s).1 := rfl

@[simp] lemma flightState_ay (cfg : Config) (s : State) :
    (flightState cfg s).ay = (nextAccel cfg s).2 := rfl

@[simp] lemma flightState_t (cfg : Config) (s : State) :
    (flightState cfg s).t = s.t + cfg.dt := rfl

@[simp] lemma flightState_bounces (cfg : Config) (s : State) :
    (flightState cfg s).bounces = s.bounces := rfl

@[simp] lemma flightState_first_impact (cfg : Config) (s : State) :
    (flightState cfg s).first_impact = s.first_impact := rfl

@[simp] lemma flightState_rows (cfg : Config) (s : State) :
    (flightState cfg s).rows = s.rows ++ [stateRow (flightState cfg s)] := rfl

@[simp] lemma flightState_traj (cfg : Config) (s : State) :
    (flightState cfg s).traj = s.traj ++ [(stepX cfg s, stepY cfg s)] := rfl

/-- The state carried by a loop iteration is `crossState` on a crossing
and `flightState` otherwise, whether or not the iteration halts. -/
lemma loopBody_st (cfg : Config) (s : State) :
    (loopBody cfg s).st =
      if crossCond cfg s then crossState cfg s else flightState cfg s := by
  unfold loopBody
  split_ifs <;> rfl

lemma loopBody_next_st {cfg : Config} {s s' : State}
    (h : loopBody cfg s = IterResult.next s') : s' = (loopBody cfg s).st := by
  rw [h]; rfl

lemma loopBody_halt_st {cfg : Config} {s s' : State} {reason : StopReason}
    (h : loopBody cfg s = IterResult.halt reason s') : s' = (loopBody cfg s).st := by
  rw [h]; rfl

/-- A crossing iteration that continues comes from `crossState` and the
bounce counter stayed strictly below the limit. -/
lemma loopBody_next_cross {cfg : Config} {s s' : State}
    (h : loopBody cfg s = IterResult.next s') (hc : crossCond cfg s) :
    s' = crossState cfg s ∧ s.bounces + 1 < cfg.max_bounces := by
  unfold loopBody at h
  rw [if_pos hc] at h
  split_ifs at h with h1 h2 h3
  · exact ⟨(IterResult.next.inj h).symm, lt_of_not_le h1⟩

/-- A non-crossing iteration that continues comes from `flightState`. -/
lemma loopBody_next_flight {cfg : Config} {s s' : State}
    (h : loopBody cfg s = IterResult.next s') (hc : ¬ crossCond cfg s) :
    s' = flightState cfg s := by
  unfold loopBody at h
  rw [if_neg hc] at h
  split_ifs at h
  exact (IterResult.next.inj h).symm

/-- The bounce-limit exit happens exactly on a crossing whose incremented
counter meets the limit. -/
lemma loopBody_halt_bounceLimit {cfg : Config} {s s' : State}
    (h : loopBody cfg s = IterResult.halt StopReason.bounceLimit s') :
    crossCond cfg s ∧ cfg.max_bounces ≤ s.bounces + 1 ∧ s' = crossState cfg s := by
  unfold loopBody at h
  split_ifs at h with h1 h2 h3 h4
  · exact ⟨h1, h2, (IterResult.halt.inj h).2.symm⟩
  · exact absurd (IterResult.halt.inj h).1 (by decide)
  · exact absurd (IterResult.halt.inj h).1 (by decide)
  · exact absurd (IterResult.halt.inj h).1 (by decide)

/-! Facts about the fuel-indexed loop. -/

lemma simLoop_zero (cfg : Config) (s : State) : simLoop cfg 0 s = none := rfl

lemma simLoop_succ (cfg : Config) (fuel : ℕ) (s : State) :
    simLoop cfg (fuel + 1) s =
      if s.t ≤ MAX_TIME then
        match loopBody cfg s with
        | IterResult.next s' => simLoop cfg fuel s'
        | IterResult.halt reason s' => some (s', reason)
      else some (s, StopReason.timedOut) := rfl

/-- Any property preserved by the loop body holds of the final state of
every completed run. -/
lemma simLoop_invariant (cfg : Config) (P : State → Prop)
    (hP : ∀ s, P s → P ((loopBody cfg s).st)) :
    ∀ fuel s r, simLoop cfg fuel s = some r → P s → P r.1 := by
  intro fuel
  induction fuel with
  | zero => intro s r h; simp [simLoop_zero] at h
  | succ n ih =>
    intro s r h hs
    rw [simLoop_succ] at h
    by_cases ht : s.t ≤ MAX_TIME
    · rw [if_pos ht] at h
      cases hb : loopBody cfg s with
      | next s' =>
        rw [hb] at h
        refine ih s' r h ?_
        have := hP s hs
        rwa [hb] at this
      | halt reason s' =>
        rw [hb] at h
        cases h
        have := hP s hs
        rwa [hb] at this
    · rw [if_neg ht] at h
      cases h
      exact hs

/-- Rows are only appended: the starting rows are an initial segment of
the final rows. -/
lemma simLoop_rows_append (cfg : Config) :
    ∀ fuel s r, simLoop cfg fuel s = some r → ∃ l, r.1.rows = s.rows ++ l := by
  intro fuel
  induction fuel with
  | zero => intro s r h; simp [simLoop_zero] at h
  | succ n ih =>
    intro s r h
    rw [simLoop_succ] at h
    by_cases ht : s.t ≤ MAX_TIME
    · rw [if_pos ht] at h
      cases hb : loopBody cfg s with
      | next s' =>
        rw [hb] at h
        obtain ⟨l, hl⟩ := ih s' r h
        have hs' : s'.rows = s.rows ++ [stateRow s'] := by
          have := loopBody_next_st hb
          rw [this, loopBody_st]
          split_ifs with hc <;> simp [loopBody_st, hc]
        exact ⟨[stateRow s'] ++ l, by rw [hl, hs', List.append_assoc]⟩
      | halt reason s' =>
        rw [hb] at h
        cases h
        have hs' : s'.rows = s.rows ++ [stateRow s'] := by
          have := loopBody_halt_st hb
          rw [this, loopBody_st]
          split_ifs with hc <;> simp [loopBody_st, hc]
        exact ⟨[stateRow s'], hs'⟩
    · rw [if_neg ht] at h
      cases h
      exact ⟨[], by simp⟩

/-- Each loop iteration appends exactly one row, so fuel bounds the
number of rows added to the record. -/
lemma simLoop_rows_length (cfg : Config) :
    ∀ fuel s r, simLoop cfg fuel s = some r →
      r.1.rows.length ≤ s.rows.length + fuel := by
  intro fuel
  induction fuel with
  | zero => intro s r h; simp [simLoop_zero] at h
  | succ n ih =>
    intro s r h
    rw [simLoop_succ] at h
    by_cases ht : s.t ≤ MAX_TIME
    · rw [if_pos ht] at h
      cases hb : loopBody cfg s with
      | next s' =>
        rw [hb] at h
        have hlen : s'.rows.length = s.rows.length + 1 := by
          have := loopBody_next_st hb
          rw [this, loopBody_st]
          split_ifs with hc <;> simp
        have := ih s' r h
        omega
      | halt reason s' =>
        rw [hb] at h
        cases h
        have hlen : s'.rows.length = s.rows.length + 1 := by
          have := loopBody_halt_st hb
          rw [this, loopBody_st]
          split_ifs with hc <;> simp
        show s'.rows.length ≤ s.rows.length + (n + 1)
        omega
    · rw [if_neg ht] at h
      cases h
      show s.rows.length ≤ s.rows.length + (n + 1)
      omega

/-- If a completed run exits through the bounce limit and started below
the limit, the final counter equals the limit exactly. -/
lemma simLoop_bounceLimit_exact (cfg : Config) :
    ∀ fuel s r, simLoop cfg fuel s = some r → s.bounces < cfg.max_bounces →
      r.2 = StopReason.bounceLimit → r.1.bounces = cfg.max_bounces := by
  intro fuel
  induction fuel with
  | zero => intro s r h; simp [simLoop_zero] at h
  | succ n ih =>
    intro s r h hs hr
    rw [simLoop_succ] at h
    by_cases ht : s.t ≤ MAX_TIME
    · rw [if_pos ht] at h
      cases hb : loopBody cfg s with
      | next s' =>
        rw [hb] at h
        refine ih s' r h ?_ hr
        by_cases hc : crossCond cfg s
        · obtain ⟨hst, hlt⟩ := loopBody_next_cross hb hc
          rw [hst]; simpa using hlt
        · rw [loopBody_next_flight hb hc]; simpa using hs
      | halt reason s' =>
        rw [hb] at h
        cases h
        have hreason : reason = StopReason.bounceLimit := hr
        rw [hreason] at hb
        obtain ⟨-, hle, hst⟩ := loopBody_halt_bounceLimit hb
        show s'.bounces = cfg.max_bounces
        rw [hst]
        simp only [crossState_bounces]
        omega
    · rw [if_neg ht] at h
      cases h
      have : StopReason.timedOut = StopReason.bounceLimit := hr
      exact absurd this (by decide)

/-! Arithmetic of the backtracking step and the termination measure. -/

/-- On a crossing from a non-negative height the interpolation
denominator is strictly positive (hence the division guard passes). -/
lemma cross_denom_pos {cfg : Config} {s : State} (hy : 0 ≤ s.y)
    (hc : crossCond cfg s) : 0 < s.y - stepY cfg s := by
  have := hc.1
  linarith

/-- The interpolation fraction is non-negative whenever the pre-step
height is. -/
lemma alphaOf_nonneg {cfg : Config} {s : State} (hy : 0 ≤ s.y)
    (hc : crossCond cfg s) : 0 ≤ alphaOf cfg s := by
  unfold alphaOf
  rw [if_pos (ne_of_gt (cross_denom_pos hy hc))]
  exact div_nonneg hy (cross_denom_pos hy hc).le

/-- The backtracked impact time never precedes the pre-step time. -/
lemma impactT_ge {cfg : Config} {s : State} (hdt : 0 < cfg.dt)
    (hy : 0 ≤ s.y) (hc : crossCond cfg s) : s.t ≤ impactT cfg s := by
  unfold impactT
  have := mul_nonneg (alphaOf_nonneg hy hc) hdt.le
  linarith

/-- Time never runs backwards across a loop iteration. -/
lemma loopBody_t_mono (cfg : Config) (s : State) (hdt : 0 < cfg.dt)
    (hy : 0 ≤ s.y) : s.t ≤ ((loopBody cfg s).st).t := by
  rw [loopBody_st]
  split_ifs with hc
  · simpa using impactT_ge hdt hy hc
  · simp only [flightState_t]
    linarith

/-- The post-iteration height is never negative: a crossing resets it to
zero, and a non-crossing step either rises or was above ground. -/
lemma loopBody_y_nonneg (cfg : Config) (s : State) (hdt : 0 < cfg.dt)
    (hy : 0 ≤ s.y) : 0 ≤ ((loopBody cfg s).st).y := by
  rw [loopBody_st]
  split_ifs with hc
  · simp
  · simp only [flightState_y]
    by_cases hv : stepVy cfg s < 0
    · have : ¬ stepY cfg s < 0 := fun h => hc ⟨h, hv⟩
      linarith
    · push_neg at hv
      unfold stepY
      nlinarith

/-- The executable floor agrees with the mathematical floor. -/
lemma ratFloor_eq_floor (q : ℚ) : ratFloor q = ⌊q⌋ := by
  unfold ratFloor
  exact Rat.floor_def.symm

/-- The time budget is antitone in elapsed time. -/
lemma timePart_anti {cfg : Config} (hdt : 0 < cfg.dt) {t1 t2 : ℚ}
    (h : t1 ≤ t2) : timePart cfg t2 ≤ timePart cfg t1 := by
  unfold timePart
  split_ifs with h2 h1 h1
  · have hq : (MAX_TIME - t2) / cfg.dt ≤ (MAX_TIME - t1) / cfg.dt :=
      (div_le_div_iff_of_pos_right hdt).mpr (by linarith)
    exact Nat.succ_le_succ (Int.toNat_le_toNat (Int.floor_le_floor hq))
  · exact absurd (h.trans h2) h1
  · exact Nat.zero_le _
  · exact Nat.zero_le _

/-- Advancing by a full `dt` from inside the ceiling strictly shrinks the
time budget. -/
lemma timePart_step {cfg : Config} (hdt : 0 < cfg.dt) {t : ℚ}
    (ht : t ≤ MAX_TIME) : timePart cfg (t + cfg.dt) < timePart cfg t := by
  unfold timePart
  rw [if_pos ht]
  split_ifs with h2
  · have key : (MAX_TIME - (t + cfg.dt)) / cfg.dt = (MAX_TIME - t) / cfg.dt - 1 := by
      field_simp
      ring
    have h1le : (1 : ℚ) ≤ (MAX_TIME - t) / cfg.dt := by
      rw [le_div_iff₀ hdt]
      linarith
    have hfl : 1 ≤ ⌊(MAX_TIME - t) / cfg.dt⌋ := Int.le_floor.mpr (by exact_mod_cast h1le)
    rw [key, Int.floor_sub_one]
    omega
  · exact Nat.succ_pos _

/-- Every continuing iteration strictly decreases the termination
measure. -/
lemma stepMeasure_decreases (cfg : Config) {s s' : State} (hdt : 0 < cfg.dt)
    (hy : 0 ≤ s.y) (ht : s.t ≤ MAX_TIME)
    (h : loopBody cfg s = IterResult.next s') :
    stepMeasure cfg s' < stepMeasure cfg s := by
  unfold stepMeasure
  by_cases hc : crossCond cfg s
  · obtain ⟨hst, hlt⟩ := loopBody_next_cross h hc
    have htime : timePart cfg s'.t ≤ timePart cfg s.t := by
      apply timePart_anti hdt
      have := loopBody_t_mono cfg s hdt hy
      rwa [← loopBody_next_st h] at this
    have hb : s'.bounces = s.bounces + 1 := by rw [hst]; simp
    have hbp : (cfg.max_bounces - s'.bounces).toNat <
        (cfg.max_bounces - s.bounces).toNat := by omega
    omega
  · have hst := loopBody_next_flight h hc
    have hb : s'.bounces = s.bounces := by rw [hst]; simp
    have ht' : s'.t = s.t + cfg.dt := by rw [hst]; simp
    have := @timePart_step cfg hdt s.t ht
    rw [← ht'] at this
    omega

/-- With the measure below the fuel, the loop completes. -/
lemma simLoop_total (cfg : Config) (hdt : 0 < cfg.dt) :
    ∀ fuel s, 0 ≤ s.y → stepMeasure cfg s < fuel →
      (simLoop cfg fuel s).isSome := by
  intro fuel
  induction fuel with
  | zero => intro s hy hm; exact absurd hm (Nat.not_lt_zero _)
  | succ n ih =>
    intro s hy hm
    rw [simLoop_succ]
    by_cases ht : s.t ≤ MAX_TIME
    · rw [if_pos ht]
      cases hb : loopBody cfg s with
      | next s' =>
        have hy' : 0 ≤ s'.y := by
          have := loopBody_y_nonneg cfg s hdt hy
          rwa [← loopBody_next_st hb] at this
        have hm' := stepMeasure_decreases cfg hdt hy ht hb
        exact ih s' hy' (by omega)
      | halt reason s' => simp
    · rw [if_neg ht]
      simp

/-- On the documented input domain (`dt > 0`, `h0 ≥ 0`) the supplied fuel
always suffices: the embedded run completes. -/
lemma simulate_isSome (cfg : Config) (hdt : 0 < cfg.dt) (hh : 0 ≤ cfg.h0) :
    (simulate_projectile cfg).isSome := by
  unfold simulate_projectile
  apply simLoop_total cfg hdt
  · simpa [initState] using hh
  · unfold stepMeasure fuelFor timePart
    simp only [initState]
    rw [if_pos (by norm_num [MAX_TIME] : (0 : ℚ) ≤ MAX_TIME)]
    rw [sub_zero, ← ratFloor_eq_floor]
    omega

/-! The claims. -/

/-- C1: at every resolved ground crossing (post-step height and vertical
velocity both negative), the velocity recorded after resolution satisfies
`vy_after = -e * vy_before` and `vx_after = (1 - mu) * vx_before`, where
the before-values are the integrated velocities immediately preceding
resolution; the appended telemetry row carries the same values. -/
theorem bounce_response_velocities (cfg : Config) (s : State)
    (h : s.y + (s.vy + s.ay * cfg.dt) * cfg.dt < 0 ∧ s.vy + s.ay * cfg.dt < 0) :
    ((loopBody cfg s).st).vy = -(s.vy + s.ay * cfg.dt) * cfg.restitution ∧
    ((loopBody cfg s).st).vx = (s.vx + s.ax * cfg.dt) * (1 - cfg.ground_friction) ∧
    (((loopBody cfg s).st).rows.getLast?.map TelemetryRow.vy) =
      some (-(s.vy + s.ay * cfg.dt) * cfg.restitution) ∧
    (((loopBody cfg s).st).rows.getLast?.map TelemetryRow.vx) =
      some ((s.vx + s.ax * cfg.dt) * (1 - cfg.ground_friction)) := by
  have hc : crossCond cfg s := h
  rw [loopBody_st, if_pos hc]
  refine ⟨rfl, rfl, ?_, ?_⟩ <;>
    rw [crossState_rows, List.getLast?_concat] <;> rfl

/-- C1 witness: the theorem applied to the degenerate launch, whose very
first step is a crossing. -/
theorem bounce_response_velocities_witness :
    ((initState cfgDegenerate).y +
        ((initState cfgDegenerate).vy + (initState cfgDegenerate).ay * cfgDegenerate.dt) * cfgDegenerate.dt < 0 ∧
      (initState cfgDegenerate).vy + (initState cfgDegenerate).ay * cfgDegenerate.dt < 0) ∧
    ((loopBody cfgDegenerate (initState cfgDegenerate)).st).vy =
      -((initState cfgDegenerate).vy + (initState cfgDegenerate).ay * cfgDegenerate.dt) *
        cfgDegenerate.restitution :=
  ⟨by decide, (bounce_response_velocities cfgDegenerate (initState cfgDegenerate) (by decide)).1⟩

/-- C2: a step is rewritten by the collision resolver exactly when its
post-step height and vertical velocity are both negative; in that case
`x`, `y`, `t` become the linearly interpolated crossing point with the
guarded fraction `alpha = y_prev / (y_prev - y_new)` (or `0` on a zero
denominator), `y` exactly `0`; otherwise the integrated values stand. -/
theorem collision_resolver_rewrite (cfg : Config) (s : State) :
    ((s.y + (s.vy + s.ay * cfg.dt) * cfg.dt < 0 ∧ s.vy + s.ay * cfg.dt < 0) →
      ((loopBody cfg s).st).x =
        s.x + (if s.y - (s.y + (s.vy + s.ay * cfg.dt) * cfg.dt) ≠ 0
               then s.y / (s.y - (s.y + (s.vy + s.ay * cfg.dt) * cfg.dt)) else 0) *
              ((s.x + (s.vx + s.ax * cfg.dt) * cfg.dt) - s.x) ∧
      ((loopBody cfg s).st).y = 0 ∧
      ((loopBody cfg s).st).t =
        s.t + (if s.y - (s.y + (s.vy + s.ay * cfg.dt) * cfg.dt) ≠ 0
               then s.y / (s.y - (s.y + (s.vy + s.ay * cfg.dt) * cfg.dt)) else 0) * cfg.dt) ∧
    (¬(s.y + (s.vy + s.ay * cfg.dt) * cfg.dt < 0 ∧ s.vy + s.ay * cfg.dt < 0) →
      ((loopBody cfg s).st).x = s.x + (s.vx + s.ax * cfg.dt) * cfg.dt ∧
      ((loopBody cfg s).st).y = s.y + (s.vy + s.ay * cfg.dt) * cfg.dt ∧
      ((loopBody cfg s).st).t = s.t + cfg.dt) := by
  constructor
  · intro h
    have hc : crossCond cfg s := h
    rw [loopBody_st, if_pos hc]
    exact ⟨rfl, rfl, rfl⟩
  · intro h
    have hc : ¬ crossCond cfg s := h
    rw [loopBody_st, if_neg hc]
    exact ⟨rfl, rfl, rfl⟩

/-- C2 witness: the crossing branch at the degenerate launch and the
non-crossing branch at the timeout flight. -/
theorem collision_resolver_rewrite_witness :
    ((loopBody cfgDegenerate (initState cfgDegenerate)).st).y = 0 ∧
    ((loopBody cfgTimeout (initState cfgTimeout)).st).t =
      (initState cfgTimeout).t + cfgTimeout.dt :=
  ⟨((collision_resolver_rewrite cfgDegenerate (initState cfgDegenerate)).1 (by decide)).2.1,
   ((collision_resolver_rewrite cfgTimeout (initState cfgTimeout)).2 (by decide)).2.2⟩

/-- C3: on the documented domain (`h0 ≥ 0`, and `dt > 0` as stipulated by
SimulationConfig), every recorded telemetry row and every trajectory
point has height `y ≥ 0` exactly. -/
theorem telemetry_heights_nonneg (cfg : Config) (hh : 0 ≤ cfg.h0)
    (hdt : 0 < cfg.dt) :
    ∀ r, simulate_projectile cfg = some r →
      (∀ row ∈ r.1.rows, 0 ≤ row.y) ∧ (∀ p ∈ r.1.traj, 0 ≤ p.2) := by
  intro r hr
  have key := simLoop_invariant cfg
    (fun s => 0 ≤ s.y ∧ (∀ row ∈ s.rows, 0 ≤ row.y) ∧ (∀ p ∈ s.traj, 0 ≤ p.2))
    (fun s hs => by
      obtain ⟨hy, hrows, htraj⟩ := hs
      have hy' := loopBody_y_nonneg cfg s hdt hy
      refine ⟨hy', ?_, ?_⟩
      · have hrows' : ((loopBody cfg s).st).rows =
            s.rows ++ [stateRow ((loopBody cfg s).st)] := by
          rw [loopBody_st]
          split_ifs <;> simp
        rw [hrows']
        intro row hrow
        rcases List.mem_append.mp hrow with h1 | h2
        · exact hrows row h1
        · rw [List.mem_singleton.mp h2]
          exact hy'
      · have htraj' : ((loopBody cfg s).st).traj =
            s.traj ++ [(((loopBody cfg s).st).x, ((loopBody cfg s).st).y)] := by
          rw [loopBody_st]
          split_ifs <;> simp
        rw [htraj']
        intro p hp
        rcases List.mem_append.mp hp with h1 | h2
        · exact htraj p h1
        · rw [List.mem_singleton.mp h2]
          exact hy')
    (fuelFor cfg) (initState cfg) r hr
    ⟨by simpa [initState] using hh,
     by intro row hrow; simp [initState] at hrow; rw [hrow]; exact hh,
     by intro p hp; simp [initState] at hp; rw [hp]; exact hh⟩
  exact ⟨key.2.1, key.2.2⟩

/-- C3 witness: the theorem applied to the degenerate run, specialised to
its middle recorded row. -/
theorem telemetry_heights_nonneg_witness :
    0 ≤ cfgDegenerate.h0 ∧ 0 < cfgDegenerate.dt ∧
    0 ≤ (TelemetryRow.mk 0 0 0 0 (2943/50000) 0 (-981/100)).y :=
  ⟨by decide, by decide,
   (telemetry_heights_nonneg cfgDegenerate (by decide) (by decide)
      resDegenerate (by decide)).1 _ (by decide)⟩

/-- C4: every integration step is semi-implicit Euler: the new velocity
uses the previous acceleration, the new position uses the newly updated
velocity, time advances by `dt` (observable whenever the collision
resolver does not subsequently rewrite the step), and the acceleration
carried into the next step is recomputed from the new velocity (on every
step, crossings included). -/
theorem symplectic_euler_step (cfg : Config) (s : State) :
    ((loopBody cfg s).st).ax =
      (accelOf cfg (s.vx + s.ax * cfg.dt) (s.vy + s.ay * cfg.dt)).1 ∧
    ((loopBody cfg s).st).ay =
      (accelOf cfg (s.vx + s.ax * cfg.dt) (s.vy + s.ay * cfg.dt)).2 ∧
    (¬(s.y + (s.vy + s.ay * cfg.dt) * cfg.dt < 0 ∧ s.vy + s.ay * cfg.dt < 0) →
      ((loopBody cfg s).st).vx = s.vx + s.ax * cfg.dt ∧
      ((loopBody cfg s).st).vy = s.vy + s.ay * cfg.dt ∧
      ((loopBody cfg s).st).x = s.x + (s.vx + s.ax * cfg.dt) * cfg.dt ∧
      ((loopBody cfg s).st).y = s.y + (s.vy + s.ay * cfg.dt) * cfg.dt ∧
      ((loopBody cfg s).st).t = s.t + cfg.dt) := by
  rw [loopBody_st]
  split_ifs with hc
  · exact ⟨rfl, rfl, fun h => absurd hc h⟩
  · exact ⟨rfl, rfl, fun _ => ⟨rfl, rfl, rfl, rfl, rfl⟩⟩

/-- C4 witness: the theorem applied to the non-crossing first step of the
timeout flight. -/
theorem symplectic_euler_step_witness :
    ¬((initState cfgTimeout).y +
        ((initState cfgTimeout).vy + (initState cfgTimeout).ay * cfgTimeout.dt) * cfgTimeout.dt < 0 ∧
      (initState cfgTimeout).vy + (initState cfgTimeout).ay * cfgTimeout.dt < 0) ∧
    ((loopBody cfgTimeout (initState cfgTimeout)).st).t =
      (initState cfgTimeout).t + cfgTimeout.dt :=
  ⟨by decide,
   ((symplectic_euler_step cfgTimeout (initState cfgTimeout)).2.2 (by decide)).2.2.2.2⟩

/-- C5: the first-impact metadata is absent iff the run has no ground
crossing (equivalently, its bounce counter stays `0`); at a crossing with
the latch unset it is set to the backtracked impact point, whose
coordinates appear as a recorded ground-contact row; once set it is never
changed by any later step, and without a crossing it stays unset. -/
theorem first_impact_latch (cfg : Config) :
    (∀ s v, s.first_impact = some v →
        ((loopBody cfg s).st).first_impact = some v) ∧
    (∀ s, s.first_impact = none → crossCond cfg s →
        ((loopBody cfg s).st).first_impact =
          some (impactX cfg s, impactT cfg s)) ∧
    (∀ s, s.first_impact = none → ¬ crossCond cfg s →
        ((loopBody cfg s).st).first_impact = none) ∧
    (∀ fuel s r v, simLoop cfg fuel s = some r → s.first_impact = some v →
        r.1.first_impact = some v) ∧
    (∀ r, simulate_projectile cfg = some r →
        (r.1.first_impact = none ↔ r.1.bounces = 0)) ∧
    (∀ r xi ti, simulate_projectile cfg = some r →
        r.1.first_impact = some (xi, ti) →
        ∃ row ∈ r.1.rows, row.x = xi ∧ row.t = ti ∧ row.y = 0) := by
  have latch : ∀ s v, s.first_impact = some v →
      ((loopBody cfg s).st).first_impact = some v := by
    intro s v h
    rw [loopBody_st]
    split_ifs with hc <;> simp [h]
  refine ⟨latch, ?_, ?_, ?_, ?_, ?_⟩
  · intro s h hc
    rw [loopBody_st, if_pos hc]
    simp [h]
  · intro s h hc
    rw [loopBody_st, if_neg hc]
    simpa using h
  · intro fuel s r v hrun hv
    exact simLoop_invariant cfg (fun s => s.first_impact = some v)
      (fun s hs => latch s v hs) fuel s r hrun hv
  · intro r hr
    have key := simLoop_invariant cfg
      (fun s => (s.first_impact = none ↔ s.bounces = 0) ∧ 0 ≤ s.bounces)
      (fun s hs => by
        obtain ⟨hiff, hb⟩ := hs
        rw [loopBody_st]
        split_ifs with hc
        · refine ⟨?_, by simp; omega⟩
          simp only [crossState_first_impact, crossState_bounces]
          cases hfi : s.first_impact <;> simp [hfi] <;> omega
        · simpa using ⟨hiff, hb⟩)
      (fuelFor cfg) (initState cfg) r hr
      ⟨by simp [initState], by simp [initState]⟩
    exact key.1
  · intro r xi ti hr hfi
    have key := simLoop_invariant cfg
      (fun s => ∀ a b, s.first_impact = some (a, b) →
        ∃ row ∈ s.rows, row.x = a ∧ row.t = b ∧ row.y = 0)
      (fun s hs a b hfi' => by
        have hrows' : ((loopBody cfg s).st).rows =
            s.rows ++ [stateRow ((loopBody cfg s).st)] := by
          rw [loopBody_st]
          split_ifs <;> simp
        rw [loopBody_st] at hfi'
        split_ifs at hfi' with hc
        · rw [crossState_first_impact] at hfi'
          by_cases hfi0 : s.first_impact = none
          · rw [if_pos hfi0] at hfi'
            have hab := Prod.mk.injEq .. ▸ Option.some.inj hfi'
            refine ⟨stateRow ((loopBody cfg s).st), ?_, ?_, ?_, ?_⟩
            · rw [hrows']
              exact List.mem_append_right _ (List.mem_singleton.mpr rfl)
            · rw [loopBody_st, if_pos hc]
              exact hab.1
            · rw [loopBody_st, if_pos hc]
              exact hab.2
            · rw [loopBody_st, if_pos hc]
              rfl
          · rw [if_neg hfi0] at hfi'
            obtain ⟨row, hmem, hrest⟩ := hs a b hfi'
            exact ⟨row, by rw [hrows']; exact List.mem_append_left _ hmem, hrest⟩
        · have : s.first_impact = some (a, b) := hfi'
          obtain ⟨row, hmem, hrest⟩ := hs a b this
          exact ⟨row, by rw [hrows']; exact List.mem_append_left _ hmem, hrest⟩)
      (fuelFor cfg) (initState cfg) r hr
      (by intro a b hab; simp [initState] at hab)
    exact key xi ti hfi

/-- C5 witness: the degenerate run has a crossing, so by the theorem its
first-impact latch cannot be unset. -/
theorem first_impact_latch_witness :
    ¬ resDegenerate.1.first_impact = none := by
  intro hnone
  have h := ((first_impact_latch cfgDegenerate).2.2.2.2.1 resDegenerate
    (by decide)).mp hnone
  exact absurd h (by decide)

/-- C6 counterexample: in the zero-gravity flight `cfgTimeout` with
`maxBounces = 1` the near-rest threshold is never reached (no recorded
state ever has both speeds below `0.05`), yet the run ends by the time
ceiling with the bounce counter at `0`, not at `maxBounces = 1`. -/
theorem bounce_counter_counterexample :
    cfgTimeout.max_bounces = 1 ∧
    simBounces cfgTimeout = some 0 ∧
    simReason cfgTimeout = some StopReason.timedOut ∧
    simEverRest cfgTimeout = some false ∧
    (0 : ℤ) ≠ 1 :=
  ⟨by decide, by decide, by decide, by decide, by decide⟩

/-- C6 amended: the bounce counter starts at `0` and is incremented
exactly once per resolved ground crossing; the simulation records the
crossing row and stops as soon as the counter reaches `maxBounces`; and
for `maxBounces = N ≥ 1` the counter at termination is exactly `N`
whenever the run exits through the bounce limit (rather than through a
rest condition or the 60-second time ceiling). -/
theorem bounce_counter_amended (cfg : Config) :
    (initState cfg).bounces = 0 ∧
    (∀ s, ((loopBody cfg s).st).bounces =
        s.bounces + if crossCond cfg s then 1 else 0) ∧
    (∀ s, crossCond cfg s → cfg.max_bounces ≤ s.bounces + 1 →
        loopBody cfg s =
          IterResult.halt StopReason.bounceLimit (crossState cfg s) ∧
        (crossState cfg s).rows = s.rows ++ [stateRow (crossState cfg s)]) ∧
    (1 ≤ cfg.max_bounces → ∀ r, simulate_projectile cfg = some r →
        r.2 = StopReason.bounceLimit → r.1.bounces = cfg.max_bounces) := by
  refine ⟨rfl, ?_, ?_, ?_⟩
  · intro s
    rw [loopBody_st]
    split_ifs <;> simp
  · intro s hc hle
    constructor
    · unfold loopBody
      rw [if_pos hc, if_pos hle]
    · simp
  · intro hmb r hr h2
    refine simLoop_bounceLimit_exact cfg (fuelFor cfg) (initState cfg) r hr ?_ h2
    show (0 : ℤ) < cfg.max_bounces
    omega

/-- C6 witness: the degenerate launch capped at one bounce exits through
the bounce limit with counter exactly `maxBounces = 1`. -/
theorem bounce_counter_amended_witness :
    simReason cfgBounceLimitOne = some StopReason.bounceLimit ∧
    (1 : ℤ) ≤ cfgBounceLimitOne.max_bounces ∧
    (1 : ℤ) = cfgBounceLimitOne.max_bounces := by
  refine ⟨by decide, by decide, ?_⟩
  have h := (bounce_counter_amended cfgBounceLimitOne).2.2.2 (by decide)
    resBounceLimitOne (by decide) (by decide)
  rw [← h]
  decide

/-- C7 counterexample: with the coarse step `dt = 40` the run accepts two
steps, exceeding the claimed bound `60 / dt = 1.5` on the number of
accepted steps. -/
theorem step_bound_counterexample :
    0 < cfgCoarse.dt ∧ 1 ≤ cfgCoarse.max_bounces ∧ 0 ≤ cfgCoarse.h0 ∧
    simSteps cfgCoarse = some 2 ∧ ¬((2 : ℚ) ≤ MAX_TIME / cfgCoarse.dt) :=
  ⟨by decide, by decide, by decide, by decide, by decide⟩

/-- C7 amended: on the documented domain (`h0 ≥ 0`, `dt > 0`,
`maxBounces ≥ 1`) the simulation terminates; its only exit paths are the
bounce limit, the two rest conditions and the 60-second time ceiling; and
the number of accepted steps is at most
`⌊60 / dt⌋ + maxBounces + 2` (each crossing iteration may advance time by
less than `dt`, so the bounce budget enters the bound). -/
theorem termination_amended (cfg : Config) (hh : 0 ≤ cfg.h0)
    (hdt : 0 < cfg.dt) (hmb : 1 ≤ cfg.max_bounces) :
    (simulate_projectile cfg).isSome = true ∧
    (∀ r, simulate_projectile cfg = some r →
      (r.2 = StopReason.bounceLimit ∨ r.2 = StopReason.restBounce ∨
       r.2 = StopReason.restGround ∨ r.2 = StopReason.timedOut) ∧
      r.1.rows.length - 1 ≤
        (ratFloor (MAX_TIME / cfg.dt)).toNat + cfg.max_bounces.toNat + 2) := by
  refine ⟨simulate_isSome cfg hdt hh, ?_⟩
  intro r hr
  constructor
  · obtain ⟨st, reason⟩ := r
    cases reason
    · exact Or.inl rfl
    · exact Or.inr (Or.inl rfl)
    · exact Or.inr (Or.inr (Or.inl rfl))
    · exact Or.inr (Or.inr (Or.inr rfl))
  · have hlen := simLoop_rows_length cfg (fuelFor cfg) (initState cfg) r hr
    have hinit : (initState cfg).rows.length = 1 := rfl
    unfold fuelFor at hlen
    omega

/-- C7 witness: the theorem applied to the degenerate launch. -/
theorem termination_amended_witness :
    0 ≤ cfgDegenerate.h0 ∧ 0 < cfgDegenerate.dt ∧
    (1 : ℤ) ≤ cfgDegenerate.max_bounces ∧
    (simulate_projectile cfgDegenerate).isSome = true :=
  ⟨by decide, by decide, by decide,
   (termination_amended cfgDegenerate (by decide) (by decide) (by decide)).1⟩

/-- C8 counterexample: the degenerate launch `v0 = 0, h0 = 0, g = 9.81`
with the default remaining parameters records three telemetry rows, not a
single one (the seed row is recorded before the loop and the loop always
records at least one more). -/
theorem degenerate_launch_counterexample :
    cfgDegenerate.vx0 = 0 ∧ cfgDegenerate.vy0 = 0 ∧ cfgDegenerate.h0 = 0 ∧
    0 < cfgDegenerate.g ∧
    simRowsLen cfgDegenerate = some 3 ∧ (3 : ℕ) ≠ 1 :=
  ⟨by decide, by decide, by decide, by decide, by decide, by decide⟩

/-- C8 amended: the degenerate launch `v0 = 0, h0 = 0` with Earth gravity
`g = 9.81` and the default remaining parameters terminates immediately at
`t = 0` in the Resting state (through the post-bounce tiny-motion stop),
after two zero-duration bounces, and the returned Telemetry contains
three rows (the seeded row plus one per bounce), not one. -/
theorem degenerate_launch_amended :
    simulate_projectile cfgDegenerate = some resDegenerate ∧
    resDegenerate.1.t = 0 ∧
    resDegenerate.2 = StopReason.restBounce ∧
    resDegenerate.1.bounces = 2 ∧
    resDegenerate.1.rows.length = 3 :=
  ⟨by decide, by decide, by decide, by decide, by decide⟩

/-- C9: on the documented domain the recorded `t` values are
non-decreasing along the telemetry (backtracked rows included), and rows
are only ever appended — the rows present at any point of the run form a
leading segment of the final rows, never removed or reordered. -/
theorem telemetry_time_ordered (cfg : Config) (hh : 0 ≤ cfg.h0)
    (hdt : 0 < cfg.dt) :
    (∀ r, simulate_projectile cfg = some r →
      List.Chain' (· ≤ ·) (r.1.rows.map TelemetryRow.t)) ∧
    (∀ fuel s r, simLoop cfg fuel s = some r →
      ∃ l, r.1.rows = s.rows ++ l) := by
  constructor
  · intro r hr
    have key := simLoop_invariant cfg
      (fun s => 0 ≤ s.y ∧ s.rows.getLast? = some (stateRow s) ∧
        List.Chain' (· ≤ ·) (s.rows.map TelemetryRow.t))
      (fun s hs => by
        obtain ⟨hy, hlast, hchain⟩ := hs
        have hy' := loopBody_y_nonneg cfg s hdt hy
        have hmono := loopBody_t_mono cfg s hdt hy
        have hrows' : ((loopBody cfg s).st).rows =
            s.rows ++ [stateRow ((loopBody cfg s).st)] := by
          rw [loopBody_st]
          split_ifs <;> simp
        refine ⟨hy', ?_, ?_⟩
        · rw [hrows', List.getLast?_concat]
        · rw [hrows', List.map_append]
          rw [List.chain'_append]
          refine ⟨hchain, List.chain'_singleton _, ?_⟩
          intro a ha b hb
          rw [List.getLast?_map, hlast] at ha
          simp at ha hb
          rw [← ha, ← hb]
          exact hmono)
      (fuelFor cfg) (initState cfg) r hr
      ⟨by simpa [initState] using hh, rfl, List.chain'_singleton _⟩
    exact key.2.2
  · exact simLoop_rows_append cfg

/-- C9 witness: the theorem applied to the degenerate run. -/
theorem telemetry_time_ordered_witness :
    0 ≤ cfgDegenerate.h0 ∧ 0 < cfgDegenerate.dt ∧
    List.Chain' (· ≤ ·) (resDegenerate.1.rows.map TelemetryRow.t) :=
  ⟨by decide, by decide,
   (telemetry_time_ordered cfgDegenerate (by decide) (by decide)).1
     resDegenerate (by decide)⟩

/-- C10: every completed run returns a non-empty telemetry whose first
row is the seeded initial state, a trajectory that is exactly the
pointwise `(x, y)` projection of the telemetry rows (same length, same
order), and a total elapsed time equal to the `t` of the last telemetry
row. -/
theorem telemetry_trajectory_shape (cfg : Config) :
    ∀ r, simulate_projectile cfg = some r →
      r.1.rows ≠ [] ∧
      r.1.rows.head? = some (stateRow (initState cfg)) ∧
      r.1.traj = r.1.rows.map (fun row => (row.x, row.y)) ∧
      (r.1.rows.map TelemetryRow.t).getLast? = some r.1.t := by
  intro r hr
  have key := simLoop_invariant cfg
    (fun s => s.rows.getLast? = some (stateRow s) ∧
      s.traj = s.rows.map (fun row => (row.x, row.y)))
    (fun s hs => by
      obtain ⟨hlast, htraj⟩ := hs
      have hrows' : ((loopBody cfg s).st).rows =
          s.rows ++ [stateRow ((loopBody cfg s).st)] := by
        rw [loopBody_st]
        split_ifs <;> simp
      have htraj' : ((loopBody cfg s).st).traj =
          s.traj ++ [(((loopBody cfg s).st).x, ((loopBody cfg s).st).y)] := by
        rw [loopBody_st]
        split_ifs <;> simp
      refine ⟨?_, ?_⟩
      · rw [hrows', List.getLast?_concat]
      · rw [htraj', hrows', List.map_append, htraj]
        rfl)
    (fuelFor cfg) (initState cfg) r hr ⟨rfl, rfl⟩
  obtain ⟨l, hl⟩ := simLoop_rows_append cfg (fuelFor cfg) (initState cfg) r hr
  refine ⟨?_, ?_, key.2, ?_⟩
  · rw [hl]
    simp [initState]
  · rw [hl]
    rfl
  · rw [List.getLast?_map, key.1]
    rfl

/-- C10 witness: the theorem applied to the timeout run. -/
theorem telemetry_trajectory_shape_witness :
    resTimeout.1.traj = resTimeout.1.rows.map (fun row => (row.x, row.y)) :=
  ((telemetry_trajectory_shape cfgTimeout) resTimeout (by decide)).2.2.1


end PF
